import Mathlib

/-!
Verification of the MDXPDF-MCP document rendering pipeline (src/index.ts).

The pipeline is modelled as pure Lean functions over `List Char` / `String`:

* `replaceMermaidList` embeds the preprocessing step
  `markdown_source.replace(/```mermaid\n([\s\S]*?)\n```/g, ...)`
  (src/index.ts lines 277-283): a global, leftmost, lazy-body regex
  replacement of mermaid-labelled fenced code blocks by container divs.
* `math_script` is the constant injected preamble (src/index.ts lines 285-338).
* `performCreatePDF` (src/index.ts lines 269-373) is modelled as a function
  returning the ordered list of side effects (the staging-file write and the
  conversion-engine invocation) together with the returned result record.
* `isCreatePDFArgs` and `handleCallTool` embed the argument validation and the
  Call#Tool request handler (src/index.ts lines 255-267 and 380-422).
-/

/-- `hasPre t l` decides whether list `t` is a leading segment of list `l`. -/
def hasPre {α : Type} [DecidableEq α] : List α → List α → Bool
  | [], _ => true
  | _ :: _, [] => false
  | t :: ts, c :: cs => decide (t = c) && hasPre ts cs

/-- `findTok tok l` scans `l` left to right for the first occurrence of the
token `tok`, mirroring the way a regex engine advances one character at a time
until the literal part of the pattern matches.  On success it returns the text
before the occurrence and the text after it. -/
def findTok (tok : List Char) : List Char → Option (List Char × List Char)
  | [] => none
  | c :: cs =>
    if hasPre tok (c :: cs) then some ([], (c :: cs).drop tok.length)
    else
      match findTok tok cs with
      | none => none
      | some (p, r) => some (c :: p, r)

/-- The opening token of the mermaid fence pattern: the literal
part before the lazy body in the regex `/```mermaid\n([\s\S]*?)\n```/g`. -/
def openTok : List Char := "```mermaid\n".data

/-- The closing token of the mermaid fence pattern: the literal `\n```` that
ends the lazy body. -/
def closeTok : List Char := "\n```".data

/-- Opening of the replacement produced for each matched fence
(`<div class="mermaid">\n`). -/
def wrapOpen : List Char := "<div class=\"mermaid\">\n".data

/-- Closing of the replacement produced for each matched fence (`\n</div>`). -/
def wrapClose : List Char := "\n</div>".data

/-- The set of characters removed by JavaScript's `String.prototype.trim`
(ECMAScript WhiteSpace and LineTerminator code points). -/
def isJsWhitespace (c : Char) : Bool :=
  let n := c.toNat
  n = 9 || n = 10 || n = 11 || n = 12 || n = 13 || n = 32 ||
  n = 0xA0 || n = 0x1680 || (0x2000 ≤ n && n ≤ 0x200A) ||
  n = 0x2028 || n = 0x2029 || n = 0x202F || n = 0x205F ||
  n = 0x3000 || n = 0xFEFF

/-- `jsTrim` models `code.trim()`: strip JS whitespace from both ends. -/
def jsTrim (l : List Char) : List Char :=
  ((l.dropWhile isJsWhitespace).reverse.dropWhile isJsWhitespace).reverse

/-- `NoOcc tok l`: the token `tok` occurs nowhere in `l`. -/
def NoOcc (tok l : List Char) : Prop := ∀ p q, l ≠ p ++ tok ++ q

/-- Boolean companion of `NoOcc`, used to discharge hypotheses by evaluation. -/
def noOccB (tok l : List Char) : Bool := (findTok tok l).isNone

/-- The preprocessing step of `performCreatePDF` (src/index.ts lines 277-283)
on character lists.  It mirrors the semantics of the global regex replacement
`markdown_source.replace(/```mermaid\n([\s\S]*?)\n```/g, m => wrap(m.trim()))`:
the engine finds the leftmost occurrence of the literal ```` ```mermaid\n ````,
takes the shortest body terminated by `\n````` (lazy `[\s\S]*?`), replaces the
whole match by the container div wrapping the trimmed body, and resumes
scanning right after the match; if the opening literal has no closing token
after it, no match starting at or after it can exist and the remainder is
passed through unchanged. -/
def replaceMermaidList (cs : List Char) : List Char :=
  match h1 : findTok openTok cs with
  | none => cs
  | some (pre, rest) =>
    match h2 : findTok closeTok rest with
    | none => cs
    | some (body, rest2) =>
      pre ++ wrapOpen ++ jsTrim body ++ wrapClose ++ replaceMermaidList rest2
termination_by cs.length
decreasing_by
  have key : ∀ (tok : List Char), tok ≠ [] → ∀ l p r,
      findTok tok l = some (p, r) → r.length < l.length := by
    intro tok htok l
    induction l with
    | nil => intro p r h; simp [findTok] at h
    | cons c cs ih =>
      intro p r h
      by_cases hp : hasPre tok (c :: cs) = true
      · rw [findTok, if_pos hp] at h
        have hr : r = (c :: cs).drop tok.length := by
          cases h; rfl
        have htl : 1 ≤ tok.length := by
          cases tok with
          | nil => exact absurd rfl htok
          | cons a as => simp
        have := List.length_drop tok.length (c :: cs)
        rw [hr, this]
        simp only [List.length_cons]
        omega
      · rw [findTok, if_neg hp] at h
        cases hfc : findTok tok cs with
        | none => rw [hfc] at h; exact absurd h (by simp)
        | some pr =>
          obtain ⟨p', r'⟩ := pr
          rw [hfc] at h
          have hr : r = r' := by cases h; rfl
          have := ih p' r' hfc
          rw [hr]
          simp only [List.length_cons]
          omega
  have a1 := key openTok (by decide) cs pre rest h1
  have a2 := key closeTok (by decide) rest body rest2 h2
  omega

/-- The preprocessor at `String` level, as used by `performCreatePDF`. -/
def replaceMermaid (s : String) : String := String.mk (replaceMermaidList s.data)

/-- A mermaid-fenced document: interleaving of plain text segments and fences.
`assemble [(t1, b1), ..., (tn, bn)] t` is
`t1 ++ "```mermaid\n" ++ b1 ++ "\n```" ++ ... ++ tn ++ fence bn ++ t`. -/
def assemble : List (List Char × List Char) → List Char → List Char
  | [], t => t
  | (t, b) :: segs, tN => t ++ openTok ++ b ++ closeTok ++ assemble segs tN

/-- The expected preprocessor output for a fenced document: each fence replaced
by a container div wrapping the trimmed body, everything else unchanged. -/
def assembleOut : List (List Char × List Char) → List Char → List Char
  | [], t => t
  | (t, b) :: segs, tN => t ++ wrapOpen ++ jsTrim b ++ wrapClose ++ assembleOut segs tN


/-- One syntax-extension entry of the `markdownItPlugins` chain passed to the
conversion engine (src/index.ts lines 355-362). -/
inductive MarkdownItPlugin where
  | emoji : MarkdownItPlugin
  | checkbox : MarkdownItPlugin
  | footnote : MarkdownItPlugin
  | deflist : MarkdownItPlugin
  | container : String → MarkdownItPlugin
deriving DecidableEq

/-- The static plugin chain, in source order (src/index.ts lines 355-362). -/
def markdownItPlugins : List MarkdownItPlugin :=
  [MarkdownItPlugin.emoji, MarkdownItPlugin.checkbox, MarkdownItPlugin.footnote,
   MarkdownItPlugin.deflist, MarkdownItPlugin.container "warning",
   MarkdownItPlugin.container "info"]

/-- The argument record of the `mdToPdf` invocation (src/index.ts lines 342-364). -/
structure MdToPdfInvocation where
  path : String
  dest : String
  stylesheet : List String
  body_class : List String
  format : String
  marginTop : String
  marginRight : String
  marginBottom : String
  marginLeft : String
  timeout : Nat
  plugins : List MarkdownItPlugin
deriving DecidableEq

/-- The result record returned by `performCreatePDF` (src/index.ts lines 366-372). -/
structure CreatePDFResult where
  file_name : String
  download_url : String
deriving DecidableEq

/-- A side effect of `performCreatePDF`, in order: the staging-file write
(`writeFile`, line 340) and the conversion-engine call (`mdToPdf`, line 342). -/
inductive Event where
  | write : String → String → Event
  | convert : MdToPdfInvocation → Event
deriving DecidableEq

/-- The fallback output directory (src/index.ts line 274). -/
def defaultSavePath : String := "/home/murali/Documents/GeneratedPDF"

/-- `process.env.SAVE_PATH || defaultSavePath` (src/index.ts line 274): the
JavaScript `||` falls back whenever `SAVE_PATH` is unset or the empty string
(the empty string is falsy). -/
def resolveSavePath : Option String → String
  | none => defaultSavePath
  | some s => if s = "" then defaultSavePath else s

/-- The constant preamble injected before the preprocessed body
(src/index.ts lines 285-338): style overrides for diagram typography, the
MathJax delimiter configuration, the two external script references, and the
Mermaid initialization.  It is a closed string literal in the source, bound
inside `performCreatePDF` but depending on none of its arguments.  Braces and
apostrophes of the source text appear here as the escapes \x7b, \x7d, \x27. -/
def math_script : String := "<style>\n/* Override Mermaid font styles to use Computer Modern */\n.mermaid text,\n.mermaid .node text,\n.mermaid .edgeLabel text,\n.mermaid .label text,\n.mermaid .labelText,\n.mermaid .actor,\n.mermaid .messageText,\n.mermaid .noteText,\n.mermaid .loopText \x7b\n  font-family: \"CMU Serif\", \"Computer Modern\", serif !important;\n  font-size: 14px !important;\n\x7d\n\n.mermaid .node rect,\n.mermaid .node circle,\n.mermaid .node ellipse,\n.mermaid .node polygon \x7b\n  stroke: #333 !important;\n\x7d\n\n.mermaid .edgePath path \x7b\n  stroke: #333 !important;\n\x7d\n</style>\n<script>\nwindow.MathJax = \x7b\n  tex: \x7b\n    inlineMath: [[\x27$\x27, \x27$\x27], [\x27\\\\(\x27, \x27\\\\)\x27]],\n    displayMath: [[\x27$$\x27, \x27$$\x27], [\x27\\\\[\x27, \x27\\\\]\x27]]\n  \x7d\n\x7d;\n</script>\n<script src=\"https://cdnjs.cloudflare.com/ajax/libs/mathjax/3.2.2/es5/tex-mml-chtml.js\"></script>\n<script src=\"https://cdn.jsdelivr.net/npm/mermaid@11/dist/mermaid.min.js\"></script>\n<script>\n  mermaid.initialize(\x7b \n    startOnLoad: true,\n    theme: \x27default\x27,\n    themeVariables: \x7b\n      primaryColor: \x27#f4f4f4\x27,\n      primaryTextColor: \x27#1f2937\x27,\n      primaryBorderColor: \x27#333\x27,\n      lineColor: \x27#333\x27,\n      sectionBkgColor: \x27#f4f4f4\x27,\n      altSectionBkgColor: \x27#fff\x27,\n      fontFamily: \x27\"CMU Serif\", \"Computer Modern\", serif\x27,\n      fontSize: \x2714px\x27\n    \x7d,\n    fontFamily: \x27\"CMU Serif\", \"Computer Modern\", serif\x27\n  \x7d);\n</script>\n"

/-- `performCreatePDF file_name markdown_source` (src/index.ts lines 269-373),
modelled as a pure function from the `SAVE_PATH` environment value and the two
request fields to the ordered list of side effects it performs (first the
staging write of `math_script + processedMarkdown`, then the conversion-engine
invocation) and the result record it returns. -/
def performCreatePDF (envSavePath : Option String) (file_name markdown_source : String) :
    List Event × CreatePDFResult :=
  let save_path := resolveSavePath envSavePath
  let processedMarkdown := replaceMermaid markdown_source
  ([Event.write (save_path ++ "/" ++ file_name ++ ".md") (math_script ++ processedMarkdown),
    Event.convert
      { path := save_path ++ "/" ++ file_name ++ ".md",
        dest := save_path ++ "/" ++ file_name ++ ".pdf",
        stylesheet := ["/home/murali/Documents/MCP Servers/MDXPDF-MCP/style.css"],
        body_class := ["markdown-body"],
        format := "A4",
        marginTop := "1in",
        marginRight := "1in",
        marginBottom := "1in",
        marginLeft := "1in",
        timeout := 30000,
        plugins := markdownItPlugins }],
   { file_name := file_name,
     download_url := "http://localhost:8000/" ++ file_name ++ ".pdf" })

/-- The content written to the staging file by a `performCreatePDF` call. -/
def writtenContent (t : List Event × CreatePDFResult) : String :=
  match t.1 with
  | Event.write _ c :: _ => c
  | _ => ""

/-- A field value of the tool-call `arguments` object: a string, or a value of
any other runtime type (only `typeof x === "string"` matters to validation). -/
inductive ArgVal where
  | str : String → ArgVal
  | other : ArgVal
deriving DecidableEq

/-- Property lookup on the `arguments` object (`"k" in args` / `args.k`). -/
def getField : List (String × ArgVal) → String → Option ArgVal
  | [], _ => none
  | (k, v) :: rest, key => if k = key then some v else getField rest key

/-- `"k" in args && typeof args.k === "string"`. -/
def isStringField (o : Option ArgVal) : Bool :=
  match o with
  | some (ArgVal.str _) => true
  | _ => false

/-- The string payload of a field known to be a string (after validation). -/
def getStr (o : Option ArgVal) : String :=
  match o with
  | some (ArgVal.str s) => s
  | _ => ""

/-- `isCreatePDFArgs` (src/index.ts lines 255-267): the argument object is
valid when it has a `file_name` field of string type and a `markdown_source`
field of string type.  No other condition is checked. -/
def isCreatePDFArgs (args : List (String × ArgVal)) : Bool :=
  isStringField (getField args "file_name") &&
  isStringField (getField args "markdown_source")

/-- A tool-call request: the tool name and the optional arguments object. -/
structure CallToolRequest where
  name : String
  arguments : Option (List (String × ArgVal))

/-- The response produced by the request handler: the text content and the
error flag. -/
structure ToolResponse where
  text : String
  isError : Bool
deriving DecidableEq

/-- `JSON.stringify(results, null, 2)` for a result record (modulo JSON string
escaping, which no claim depends on). -/
def jsonStringify (r : CreatePDFResult) : String :=
  "\x7b\n  \"file_name\": \"" ++ r.file_name ++ "\",\n  \"download_url\": \"" ++
  r.download_url ++ "\"\n\x7d"

/-- The `CallToolRequestSchema` handler (src/index.ts lines 380-422): absent
arguments throw "No arguments provided"; for `create_pdf`, invalid arguments
throw "Invalid arguments for create_pdf", otherwise `performCreatePDF` runs
and its result is serialised; any other name reports an unknown tool.  Thrown
errors are caught and become `"Error: " ++ message` responses with the error
flag set; the pipeline's side effects are returned alongside. -/
def handleCallTool (env : Option String) (req : CallToolRequest) :
    List Event × ToolResponse :=
  match req.arguments with
  | none => ([], { text := "Error: No arguments provided", isError := true })
  | some args =>
    if req.name = "create_pdf" then
      if isCreatePDFArgs args then
        let pc := performCreatePDF env (getStr (getField args "file_name"))
          (getStr (getField args "markdown_source"))
        (pc.1, { text := jsonStringify pc.2, isError := false })
      else ([], { text := "Error: Invalid arguments for create_pdf", isError := true })
    else ([], { text := "Unknown tool: " ++ req.name, isError := true })

/-- A concrete request lacking the `markdown_source` field. -/
def reqMissingSource : CallToolRequest :=
  { name := "create_pdf", arguments := some [("file_name", ArgVal.str "a")] }

/-- Split a character list on the path separator. -/
def splitSlashAux : List Char → List Char → List (List Char)
  | [], cur => [cur.reverse]
  | c :: cs, cur =>
    if c = '/' then cur.reverse :: splitSlashAux cs []
    else splitSlashAux cs (c :: cur)

/-- POSIX-style path normalization used only to state where a path points:
split on `/`, drop empty and `.` segments, and let `..` remove the previous
segment.  A path escapes a directory when the directory's normalized segments
are not a leading segment of the path's. -/
def normSegs (s : String) : List (List Char) :=
  (splitSlashAux s.data []).foldl
    (fun acc seg =>
      if seg = ("..").data then acc.dropLast
      else if seg = (".").data then acc
      else if seg = [] then acc
      else acc ++ [seg]) []

lemma rml_none {cs : List Char} (h : findTok openTok cs = none) :
    replaceMermaidList cs = cs := by
  rw [replaceMermaidList, h]

lemma rml_noclose {cs pre rest : List Char} (h1 : findTok openTok cs = some (pre, rest))
    (h2 : findTok closeTok rest = none) : replaceMermaidList cs = cs := by
  rw [replaceMermaidList, h1]
  dsimp only
  rw [h2]

lemma rml_step {cs pre rest body rest2 : List Char}
    (h1 : findTok openTok cs = some (pre, rest))
    (h2 : findTok closeTok rest = some (body, rest2)) :
    replaceMermaidList cs =
      pre ++ wrapOpen ++ jsTrim body ++ wrapClose ++ replaceMermaidList rest2 := by
  rw [replaceMermaidList, h1]
  dsimp only
  rw [h2]

lemma hasPre_iff {α : Type} [DecidableEq α] (t l : List α) :
    hasPre t l = true ↔ ∃ r, l = t ++ r := by
  induction t generalizing l with
  | nil => simp [hasPre]
  | cons a ts ih =>
    cases l with
    | nil => simp [hasPre]
    | cons c cs =>
      simp only [hasPre, Bool.and_eq_true, decide_eq_true_eq, ih]
      constructor
      · rintro ⟨rfl, r, rfl⟩
        exact ⟨r, rfl⟩
      · rintro ⟨r, hr⟩
        rw [List.cons_append] at hr
        cases hr
        exact ⟨rfl, r, rfl⟩

lemma findTok_eq {tok l p r : List Char} (h : findTok tok l = some (p, r)) :
    l = p ++ tok ++ r := by
  induction l generalizing p r with
  | nil => simp [findTok] at h
  | cons c cs ih =>
    by_cases hp : hasPre tok (c :: cs) = true
    · rw [findTok, if_pos hp] at h
      obtain ⟨s, hs⟩ := (hasPre_iff tok (c :: cs)).mp hp
      obtain ⟨rfl, rfl⟩ : p = [] ∧ r = (c :: cs).drop tok.length := by
        cases h; exact ⟨rfl, rfl⟩
      rw [hs, List.drop_left]
      simp [hs]
    · rw [findTok, if_neg hp] at h
      cases hfc : findTok tok cs with
      | none => rw [hfc] at h; simp at h
      | some pr =>
        obtain ⟨p', r'⟩ := pr
        rw [hfc] at h
        obtain ⟨rfl, rfl⟩ : p = c :: p' ∧ r = r' := by
          cases h; exact ⟨rfl, rfl⟩
        have := ih hfc
        simp [this]

lemma findTok_none {tok l : List Char} (h : NoOcc tok l) : findTok tok l = none := by
  induction l with
  | nil => rfl
  | cons c cs ih =>
    by_cases hp : hasPre tok (c :: cs) = true
    · obtain ⟨s, hs⟩ := (hasPre_iff tok (c :: cs)).mp hp
      exact absurd hs (by simpa using h [] s)
    · rw [findTok, if_neg hp]
      have hcs : NoOcc tok cs := by
        intro p q hpq
        exact h (c :: p) q (by simp [hpq])
      rw [ih hcs]

lemma occ_findTok {tok : List Char} (htok : tok ≠ []) {l p q : List Char}
    (h : l = p ++ tok ++ q) : findTok tok l ≠ none := by
  induction p generalizing l with
  | nil =>
    cases tok with
    | nil => exact absurd rfl htok
    | cons a ts =>
      subst h
      rw [List.nil_append, List.cons_append, findTok,
        if_pos ((hasPre_iff _ _).mpr ⟨q, by simp⟩)]
      simp
  | cons a p' ih =>
    subst h
    rw [List.cons_append, List.cons_append, findTok]
    by_cases hp : hasPre tok (a :: (p' ++ tok ++ q)) = true
    · rw [if_pos hp]; simp
    · rw [if_neg hp]
      cases hfc : findTok tok (p' ++ tok ++ q) with
      | none => exact absurd hfc (by simpa using ih rfl)
      | some pr => obtain ⟨x, y⟩ := pr; simp

lemma noOccB_iff {tok : List Char} (htok : tok ≠ []) (l : List Char) :
    noOccB tok l = true ↔ NoOcc tok l := by
  constructor
  · intro hb p q h
    have : findTok tok l = none := by
      unfold noOccB at hb
      cases hf : findTok tok l with
      | none => rfl
      | some pr => rw [hf] at hb; simp [Option.isNone] at hb
    exact occ_findTok htok h this
  · intro h
    unfold noOccB
    rw [findTok_none h]
    rfl

lemma findTok_prepend {tok : List Char} (htok : tok ≠ [])
    (hper : ∀ d, 0 < d → d < tok.length → tok.drop d ≠ tok.take (tok.length - d)) :
    ∀ t r, NoOcc tok t → findTok tok (t ++ tok ++ r) = some (t, r) := by
  intro t
  induction t with
  | nil =>
    intro r _
    cases tok with
    | nil => exact absurd rfl htok
    | cons a ts =>
      rw [List.nil_append, List.cons_append, findTok,
        if_pos ((hasPre_iff _ _).mpr ⟨r, by simp⟩)]
      rw [← List.cons_append, List.drop_left]
  | cons a t ih =>
    intro r hno
    have hp : ¬ hasPre tok (a :: (t ++ tok ++ r)) = true := by
      intro hp
      obtain ⟨s, hs⟩ := (hasPre_iff _ _).mp hp
      rw [show a :: (t ++ tok ++ r) = (a :: t) ++ (tok ++ r) by simp] at hs
      rcases List.append_eq_append_iff.mp hs with ⟨a', ha1, ha2⟩ | ⟨c', hc1, hc2⟩
      · cases a' with
        | nil =>
          rw [List.append_nil] at ha1
          exact hno [] [] (by simp [← ha1])
        | cons b a'' =>
          rcases List.append_eq_append_iff.mp ha2 with ⟨x, hx1, hx2⟩ | ⟨y, hy1, hy2⟩
          · have l1 : tok.length = (a :: t).length + (b :: a'').length :=
              by rw [ha1, List.length_append]
            have l2 : (b :: a'').length = tok.length + x.length :=
              by rw [hx1, List.length_append]
            simp only [List.length_cons] at l1 l2
            omega
          · have hdrop : tok.drop (a :: t).length = b :: a'' := by
              rw [ha1, List.drop_left]
            have htake : tok.take (b :: a'').length = b :: a'' := by
              rw [hy1, List.take_left]
            have l1 : tok.length = (a :: t).length + (b :: a'').length :=
              by rw [ha1, List.length_append]
            have hlen : (b :: a'').length = tok.length - (a :: t).length := by omega
            refine hper (a :: t).length (by simp) ?_ ?_
            · simp only [List.length_cons] at l1 ⊢
              omega
            · rw [hdrop, ← hlen, htake]
      · exact hno [] c' (by simp [hc1])
    rw [List.cons_append, List.cons_append, findTok, if_neg hp]
    have hno' : NoOcc tok t := fun p q hpq => hno (a :: p) q (by simp [hpq])
    rw [ih r hno']

lemma openTok_nooverlap :
    ∀ d, 0 < d → d < openTok.length → openTok.drop d ≠ openTok.take (openTok.length - d) := by
  have : ∀ d, d < openTok.length → 0 < d →
      openTok.drop d ≠ openTok.take (openTok.length - d) := by decide
  intro d h1 h2
  exact this d h2 h1

lemma closeTok_nooverlap :
    ∀ d, 0 < d → d < closeTok.length → closeTok.drop d ≠ closeTok.take (closeTok.length - d) := by
  have : ∀ d, d < closeTok.length → 0 < d →
      closeTok.drop d ≠ closeTok.take (closeTok.length - d) := by decide
  intro d h1 h2
  exact this d h2 h1

lemma findTok_openTok_at (t r : List Char) (h : NoOcc openTok t) :
    findTok openTok (t ++ openTok ++ r) = some (t, r) :=
  findTok_prepend (by decide) openTok_nooverlap t r h

lemma findTok_closeTok_at (b r : List Char) (h : NoOcc closeTok b) :
    findTok closeTok (b ++ closeTok ++ r) = some (b, r) :=
  findTok_prepend (by decide) closeTok_nooverlap b r h

/-- C1: for a markdown source that decomposes into N well-formed mermaid
fences separated by fence-free text, the preprocessor output is exactly the
same document with each fence replaced, in order, by a container div wrapping
the whitespace-trimmed fence body, and all other content unchanged. -/
theorem mermaid_fences_wrapped (segs : List (List Char × List Char)) (tN : List Char)
    (hseg : ∀ tb ∈ segs, NoOcc openTok tb.1 ∧ NoOcc closeTok tb.2)
    (hlast : NoOcc openTok tN) :
    replaceMermaidList (assemble segs tN) = assembleOut segs tN := by
  induction segs with
  | nil => exact rml_none (findTok_none hlast)
  | cons tb segs ih =>
    obtain ⟨t, b⟩ := tb
    have hhead := hseg (t, b) (List.mem_cons_self _ _)
    have h1 : findTok openTok (assemble ((t, b) :: segs) tN)
        = some (t, (b ++ closeTok) ++ assemble segs tN) := by
      rw [show assemble ((t, b) :: segs) tN
          = (t ++ openTok) ++ ((b ++ closeTok) ++ assemble segs tN) by
        simp [assemble, List.append_assoc]]
      exact findTok_openTok_at t _ hhead.1
    have h2 : findTok closeTok ((b ++ closeTok) ++ assemble segs tN)
        = some (b, assemble segs tN) :=
      findTok_closeTok_at b _ hhead.2
    rw [rml_step h1 h2, ih (fun tb htb => hseg tb (List.mem_cons_of_mem _ htb))]
    rfl

theorem mermaid_fences_wrapped_witness :
    (∀ tb ∈ [(("Intro\n").data, ("graph TD;\nA-->B").data)],
        NoOcc openTok tb.1 ∧ NoOcc closeTok tb.2) ∧
    NoOcc openTok ("\nOutro").data ∧
    replaceMermaidList
        (assemble [(("Intro\n").data, ("graph TD;\nA-->B").data)] ("\nOutro").data)
      = assembleOut [(("Intro\n").data, ("graph TD;\nA-->B").data)] ("\nOutro").data := by
  have hseg : ∀ tb ∈ [(("Intro\n").data, ("graph TD;\nA-->B").data)],
      NoOcc openTok tb.1 ∧ NoOcc closeTok tb.2 := by
    intro tb htb
    simp only [List.mem_singleton] at htb
    subst htb
    exact ⟨(noOccB_iff (by decide) _).mp (by decide),
           (noOccB_iff (by decide) _).mp (by decide)⟩
  have hlast : NoOcc openTok ("\nOutro").data :=
    (noOccB_iff (by decide) _).mp (by decide)
  exact ⟨hseg, hlast, mermaid_fences_wrapped _ _ hseg hlast⟩

/-- C2: on a markdown source containing no complete mermaid fence (no
decomposition into prefix, opening token, body, closing token and suffix),
the preprocessor is the identity. -/
theorem no_fence_identity (cs : List Char)
    (h : ∀ p b q, cs ≠ p ++ openTok ++ b ++ closeTok ++ q) :
    replaceMermaidList cs = cs := by
  cases hf : findTok openTok cs with
  | none => exact rml_none hf
  | some pr =>
    obtain ⟨pre, rest⟩ := pr
    cases hc : findTok closeTok rest with
    | none => exact rml_noclose hf hc
    | some br =>
      obtain ⟨body, rest2⟩ := br
      exfalso
      have e1 := findTok_eq hf
      have e2 := findTok_eq hc
      exact h pre body rest2 (by rw [e1, e2]; simp [List.append_assoc])

theorem no_fence_identity_witness :
    (∀ p b q, ("hello").data ≠ p ++ openTok ++ b ++ closeTok ++ q) ∧
    replaceMermaidList ("hello").data = ("hello").data := by
  have h : ∀ p b q, ("hello").data ≠ p ++ openTok ++ b ++ closeTok ++ q := by
    intro p b q hc
    have hl := congrArg List.length hc
    simp only [List.length_append] at hl
    have h11 : openTok.length = 11 := by decide
    have h4 : closeTok.length = 4 := by decide
    have h5 : ("hello").data.length = 5 := by decide
    rw [h11, h4, h5] at hl
    omega
  exact ⟨h, no_fence_identity _ h⟩

/-- C10: an opening tag line immediately followed by the closing fence, with
no content line between them, is not matched (the pattern needs a
newline-delimited body), so the preprocessor passes it through unchanged. -/
theorem empty_fence_passthrough :
    replaceMermaid "```mermaid\n```" = "```mermaid\n```" := by
  show String.mk (replaceMermaidList ("```mermaid\n```").data) = "```mermaid\n```"
  rw [rml_noclose
    (show findTok openTok ("```mermaid\n```").data = some ([], ("```").data) by decide)
    (show findTok closeTok ("```").data = none by decide)]

/-- C3: the injected preamble is byte-identical across any two
`performCreatePDF` calls: the leading `math_script.data.length` characters of
the staged content always equal the constant `math_script`, whatever the
environment, file name and markdown source are. -/
theorem preamble_constant (e1 : Option String) (F1 M1 : String)
    (e2 : Option String) (F2 M2 : String) :
    (writtenContent (performCreatePDF e1 F1 M1)).data.take math_script.data.length
      = (writtenContent (performCreatePDF e2 F2 M2)).data.take math_script.data.length
    ∧ (writtenContent (performCreatePDF e1 F1 M1)).data.take math_script.data.length
      = math_script.data := by
  have key : ∀ (e : Option String) (F M : String),
      (writtenContent (performCreatePDF e F M)).data.take math_script.data.length
        = math_script.data := by
    intro e F M
    show (math_script ++ replaceMermaid M).data.take math_script.data.length
      = math_script.data
    rw [show (math_script ++ replaceMermaid M).data
        = math_script.data ++ (replaceMermaid M).data from rfl]
    exact List.take_left _ _
  exact ⟨(key e1 F1 M1).trans (key e2 F2 M2).symm, key e1 F1 M1⟩

/-- C4 (amended): the first effect of `performCreatePDF` is the staging write
of exactly `math_script ++ replaceMermaid M` to `<save_path>/<F>.md`, and the
conversion engine is invoked afterwards on that same path, where `save_path`
is `resolveSavePath env` (the `SAVE_PATH` value when set to a non-empty
string, the fixed default path otherwise). -/
theorem staging_write_spec (env : Option String) (F M : String) :
    ∃ i, (performCreatePDF env F M).1
        = [Event.write (resolveSavePath env ++ "/" ++ F ++ ".md")
             (math_script ++ replaceMermaid M),
           Event.convert i]
      ∧ i.path = resolveSavePath env ++ "/" ++ F ++ ".md" :=
  ⟨_, rfl, rfl⟩

/-- C4 counterexample: with `SAVE_PATH` set to the empty string the code falls
back to the default directory (JavaScript `||` treats `""` as falsy), so the
write does not target `<SAVE_PATH>/<F>.md = "/doc.md"` as the claim's reading
of "override when set" would require. -/
theorem staging_write_empty_save_path :
    (∃ c i, (performCreatePDF (some "") "doc" "x").1
        = [Event.write "/home/murali/Documents/GeneratedPDF/doc.md" c, Event.convert i])
    ∧ ("/home/murali/Documents/GeneratedPDF/doc.md" : String) ≠ "" ++ "/" ++ "doc" ++ ".md" :=
  ⟨⟨_, _, rfl⟩, by decide⟩

/-- C5: the conversion engine is invoked with destination `<save_path>/<F>.pdf`,
the fixed stylesheet, the `markdown-body` class, A4 format, 1-inch margins on
all four sides, a 30000 ms timeout, and the plugin chain in the fixed order
emoji, checkbox, footnote, definition list, container "warning", container
"info". -/
theorem engine_invocation_config (env : Option String) (F M : String) :
    ∃ p c, (performCreatePDF env F M).1
      = [Event.write p c,
         Event.convert
           { path := resolveSavePath env ++ "/" ++ F ++ ".md",
             dest := resolveSavePath env ++ "/" ++ F ++ ".pdf",
             stylesheet := ["/home/murali/Documents/MCP Servers/MDXPDF-MCP/style.css"],
             body_class := ["markdown-body"],
             format := "A4",
             marginTop := "1in",
             marginRight := "1in",
             marginBottom := "1in",
             marginLeft := "1in",
             timeout := 30000,
             plugins := [MarkdownItPlugin.emoji, MarkdownItPlugin.checkbox,
               MarkdownItPlugin.footnote, MarkdownItPlugin.deflist,
               MarkdownItPlugin.container "warning",
               MarkdownItPlugin.container "info"] }] :=
  ⟨_, _, rfl⟩

/-- C6: a successful call returns exactly
`{file_name := F, download_url := "http://localhost:8000/" ++ F ++ ".pdf"}`;
the result depends on nothing but `F`, and for `F = "report"` the URL is
`http://localhost:8000/report.pdf`. -/
theorem result_pure_of_file_name (env env2 : Option String) (F M M2 : String) :
    (performCreatePDF env F M).2
      = { file_name := F, download_url := "http://localhost:8000/" ++ F ++ ".pdf" }
    ∧ (performCreatePDF env F M).2 = (performCreatePDF env2 F M2).2
    ∧ (performCreatePDF env "report" M).2.download_url = "http://localhost:8000/report.pdf" :=
  ⟨rfl, rfl, rfl⟩

lemma isStringField_iff (o : Option ArgVal) :
    isStringField o = true ↔ ∃ s, o = some (ArgVal.str s) := by
  cases o with
  | none => simp [isStringField]
  | some v =>
    cases v with
    | str s => simp [isStringField]
    | other => simp [isStringField]

/-- C7 (amended): validation accepts an arguments object exactly when both
`file_name` and `markdown_source` are present with string type; the strings
may be empty — no non-emptiness check exists. -/
theorem validation_string_fields_iff (args : List (String × ArgVal)) :
    isCreatePDFArgs args = true
      ↔ (∃ f, getField args "file_name" = some (ArgVal.str f))
        ∧ (∃ m, getField args "markdown_source" = some (ArgVal.str m)) := by
  unfold isCreatePDFArgs
  rw [Bool.and_eq_true, isStringField_iff, isStringField_iff]

/-- C7 counterexample: a request whose two fields are empty strings passes
validation, the pipeline runs (the staging write and the engine invocation
happen), and the handler reports success — empty fields are not rejected. -/
theorem validation_accepts_empty :
    isCreatePDFArgs [("file_name", ArgVal.str ""), ("markdown_source", ArgVal.str "")] = true
    ∧ (handleCallTool none
        { name := "create_pdf",
          arguments := some [("file_name", ArgVal.str ""), ("markdown_source", ArgVal.str "")] }).1
      ≠ []
    ∧ (handleCallTool none
        { name := "create_pdf",
          arguments := some [("file_name", ArgVal.str ""), ("markdown_source", ArgVal.str "")] }).2.isError
      = false :=
  ⟨by decide, by decide, rfl⟩

/-- C8: a `create_pdf` request with no arguments object, or whose arguments
lack `file_name` or `markdown_source` (or have one at a non-string type), gets
an error-flagged response whose message indicates missing or invalid
arguments, and the pipeline does not run: no staging write, no engine call. -/
theorem invalid_args_rejected (env : Option String) (req : CallToolRequest)
    (hname : req.name = "create_pdf")
    (h : req.arguments = none
      ∨ ∃ args, req.arguments = some args ∧ isCreatePDFArgs args = false) :
    (handleCallTool env req).1 = []
    ∧ (handleCallTool env req).2.isError = true
    ∧ ((handleCallTool env req).2.text = "Error: No arguments provided"
       ∨ (handleCallTool env req).2.text = "Error: Invalid arguments for create_pdf") := by
  obtain ⟨n, args0⟩ := req
  rcases h with h | ⟨args, h, hv⟩
  · simp only at h
    subst h
    exact ⟨rfl, rfl, Or.inl rfl⟩
  · simp only at h hname
    subst h
    subst hname
    simp [handleCallTool, hv]

theorem invalid_args_rejected_witness :
    reqMissingSource.name = "create_pdf"
    ∧ (reqMissingSource.arguments = none
       ∨ ∃ args, reqMissingSource.arguments = some args ∧ isCreatePDFArgs args = false)
    ∧ ((handleCallTool none reqMissingSource).1 = []
       ∧ (handleCallTool none reqMissingSource).2.isError = true
       ∧ ((handleCallTool none reqMissingSource).2.text = "Error: No arguments provided"
          ∨ (handleCallTool none reqMissingSource).2.text
              = "Error: Invalid arguments for create_pdf")) :=
  ⟨rfl, Or.inr ⟨_, rfl, by decide⟩,
   invalid_args_rejected none reqMissingSource rfl (Or.inr ⟨_, rfl, by decide⟩)⟩

/-- C9: validation accepts every string `file_name`, including ones with
separators and `..`; the staging write targets the unsanitized concatenation
`<save_path>/<file_name>.md`; and for the accepted `file_name = "../../escape"`
the resulting path resolves outside the output directory. -/
theorem unsanitized_file_name_path :
    (∀ (env : Option String) (F M : String), ∃ c i, (performCreatePDF env F M).1
        = [Event.write (resolveSavePath env ++ "/" ++ F ++ ".md") c, Event.convert i])
    ∧ (∀ F M : String,
        isCreatePDFArgs [("file_name", ArgVal.str F), ("markdown_source", ArgVal.str M)]
          = true)
    ∧ (∃ F c i, (performCreatePDF none F "x").1
          = [Event.write (defaultSavePath ++ "/" ++ F ++ ".md") c, Event.convert i]
        ∧ hasPre (normSegs defaultSavePath)
            (normSegs (defaultSavePath ++ "/" ++ F ++ ".md")) = false) := by
  refine ⟨fun env F M => ⟨_, _, rfl⟩, fun F M => rfl, ⟨"../../escape", _, _, rfl, by decide⟩⟩
